import Mathlib

/-!
# Verification of the `parse-srcset` srcset-attribute parser

A shallow embedding of `src/index.js` (the `parseSrcset` function and its
inner `tokenize` and `parseDescriptors` helpers) together with proofs about
it.  The input string is modelled as a `List Char`; the scan position is a
`Nat` index into that list.  JavaScript numbers are modelled exactly:
`parseInt` results as `Nat` and `parseFloat` results as `Rat` (the exact
rational value of the numeric literal; IEEE-754 rounding of extreme
exponents is not modelled — every claim below only inspects signs, zeroness
and small concrete values, on which the exact model and float64 agree for
all inputs whose exponents stay in the representable range).  JavaScript
truthiness tests (`if (w)`, `if (d)`, …) on these optional numbers are
modelled by `truthyNat` / `truthyRat`: `undefined` and `0` are falsy.

The two recursive loops (`tokenize`'s character loop and the outer
splitting loop) are written with an explicit fuel parameter so that every
definition is a computable structural recursion; `parseSrcset` supplies
fuel `input.length + 1`, and sufficiency of that fuel (i.e. termination of
the JavaScript loops) is proved below.
-/

namespace ParseSrcset

/-- `isASCIIWhitespace` from the source: tab, line feed, form feed,
carriage return or space. -/
def isASCIIWhitespace (c : Char) : Bool :=
  c == '\u0009' || c == '\u000A' || c == '\x0C' || c == '\u000D' || c == ' '

/-- The character class of `regexLeadingCommasOrSpaces`: a comma or one of
the five whitespace characters. -/
def commaOrSpace (c : Char) : Bool :=
  c == ',' || isASCIIWhitespace c

/-- `url.replace(regexTrailingCommas, "")`: remove every trailing comma. -/
def dropTrailingCommas (l : List Char) : List Char :=
  (l.reverse.dropWhile (· == ',')).reverse

/-- Value of a digit string (the effect of `parseInt(value, 10)` on a
string of decimal digits). -/
def digitsVal (l : List Char) : Nat :=
  l.foldl (fun a c => 10 * a + (c.toNat - 48)) 0

/-- `regexNonNegativeInteger.test(value)` combined with
`parseInt(value, 10)`: `some` of the integer value when `value` is a
non-empty string of decimal digits, `none` otherwise. -/
def parseNonNegInt? (l : List Char) : Option Nat :=
  if l ≠ [] ∧ l.all Char.isDigit then some (digitsVal l) else none

/-- The optional exponent part `(?:[eE][+-]?[0-9]+)?$` of
`regexFloatingPoint`, returned as the signed decimal exponent.  `some 0`
on the empty remainder, `none` when the remainder is not a valid exponent
part. -/
def parseExp? : List Char → Option Int
  | [] => some 0
  | c :: rest =>
    if c == 'e' || c == 'E' then
      let signed : Int × List Char :=
        match rest with
        | '+' :: r => (1, r)
        | '-' :: r => (-1, r)
        | _ => (1, rest)
      if signed.2 ≠ [] ∧ signed.2.all Char.isDigit then
        some (signed.1 * (digitsVal signed.2 : Int))
      else none
    else none

/-- Exact rational value `intPart.fracPart × 10^e` of a decimal literal.
Computed with integer arithmetic and a single `mkRat` so that it reduces
by `rfl` (the `Rat` field operations are irreducible). -/
def decimalValue (intPart fracPart : List Char) (e : Int) : Rat :=
  let n : Int :=
    (digitsVal intPart : Int) * (10 : Int) ^ fracPart.length + (digitsVal fracPart : Int)
  if 0 ≤ e then mkRat (n * (10 : Int) ^ e.toNat) (10 ^ fracPart.length)
  else mkRat n (10 ^ fracPart.length * 10 ^ (-e).toNat)

/-- The unsigned part `(?:[0-9]+|[0-9]*\.[0-9]+)(?:[eE][+-]?[0-9]+)?$` of
`regexFloatingPoint`, with its exact rational value: integer digits, an
optional fractional part requiring at least one digit after the decimal
point, and an optional exponent. -/
def floatMagnitude? (body : List Char) : Option Rat :=
  let ds1 := body.takeWhile Char.isDigit
  let r1 := body.dropWhile Char.isDigit
  match r1 with
  | '.' :: r2 =>
    let ds2 := r2.takeWhile Char.isDigit
    let r3 := r2.dropWhile Char.isDigit
    if ds2 = [] then none
    else (parseExp? r3).map fun e => decimalValue ds1 ds2 e
  | _ =>
    if ds1 = [] then none
    else (parseExp? r1).map fun e => decimalValue ds1 [] e

/-- `regexFloatingPoint.test(value)` combined with `parseFloat(value)`:
`some` of the exact rational value of the literal when `value` matches
`^-?(?:[0-9]+|[0-9]*\.[0-9]+)(?:[eE][+-]?[0-9]+)?$` (an optional leading
minus sign, then the magnitude), `none` otherwise. -/
def parseValidFloat? (l : List Char) : Option Rat :=
  match l with
  | '-' :: rest => (floatMagnitude? rest).map fun m => -m
  | _ => floatMagnitude? l

/-- The `source` field of a candidate: the URL text together with the
offset in the input at which the URL token began. -/
structure SrcSource where
  value : List Char
  startOffset : Nat
deriving DecidableEq, Repr

/-- One image candidate as returned by the parser.  A field is `none`
exactly when the corresponding property is absent from the JavaScript
object. -/
structure Candidate where
  source : SrcSource
  width : Option Nat
  density : Option Rat
  height : Option Nat
deriving DecidableEq, Repr

/-- The two errors `parseSrcset` can throw.  `invalidDescriptor` carries
the descriptor substring interpolated into the thrown message (the loop
variable `desc` at throw time; `none` would correspond to `undefined`). -/
inductive ParseError where
  | emptyCandidateSet
  | invalidDescriptor (desc : Option (List Char))
deriving DecidableEq, Repr

/-- The mutable locals of `parseDescriptors`: the error flag, the
optional width / density / height accumulators and the loop variable
`desc` (the descriptor most recently examined). -/
structure DescState where
  pError : Bool
  w : Option Nat
  d : Option Rat
  h : Option Nat
  desc : Option (List Char)
deriving DecidableEq, Repr

/-- JavaScript truthiness of an optional integer: `undefined` and `0` are
falsy. -/
def truthyNat : Option Nat → Bool
  | none => false
  | some n => n != 0

/-- JavaScript truthiness of an optional number: `undefined` and `0`
(incl. `-0`) are falsy. -/
def truthyRat : Option Rat → Bool
  | none => false
  | some q => q != 0

/-- The initial state of `parseDescriptors`: no error, width / density /
height absent, no descriptor examined yet. -/
def initDescState : DescState :=
  ⟨false, none, none, none, none⟩

/-- One iteration of the `for` loop of `parseDescriptors`, examining one
descriptor.  `value` is the descriptor without its last character,
`lastChar` its last character; the branch structure mirrors the
`if`/`else if` chain of the source. -/
def descStep (st : DescState) (desc : List Char) : DescState :=
  let value := desc.dropLast
  let lastChar := desc.getLast?
  let st0 := { st with desc := some desc }
  if (parseNonNegInt? value).isSome && lastChar == some 'w' then
    let intVal := (parseNonNegInt? value).getD 0
    let st1 := if truthyNat st0.w || truthyRat st0.d then { st0 with pError := true } else st0
    if intVal == 0 then { st1 with pError := true } else { st1 with w := some intVal }
  else if (parseValidFloat? value).isSome && lastChar == some 'x' then
    let floatVal := (parseValidFloat? value).getD 0
    let st1 :=
      if truthyNat st0.w || truthyRat st0.d || truthyNat st0.h then
        { st0 with pError := true }
      else st0
    if floatVal < 0 then { st1 with pError := true } else { st1 with d := some floatVal }
  else if (parseNonNegInt? value).isSome && lastChar == some 'h' then
    let intVal := (parseNonNegInt? value).getD 0
    let st1 := if truthyNat st0.h || truthyRat st0.d then { st0 with pError := true } else st0
    if intVal == 0 then { st1 with pError := true } else { st1 with h := some intVal }
  else
    { st0 with pError := true }

/-- `parseDescriptors`: run the descriptor loop over the collected
descriptor list; on error throw `invalidDescriptor` naming the loop
variable `desc`, otherwise build the candidate, attaching each of
width / density / height exactly when its accumulator is truthy. -/
def parseDescriptors (url : List Char) (startOffset : Nat)
    (descriptors : List (List Char)) : Except ParseError Candidate :=
  let st := descriptors.foldl descStep initDescState
  if st.pError then
    .error (.invalidDescriptor st.desc)
  else
    .ok { source := ⟨url, startOffset⟩
          width := if truthyNat st.w then st.w else none
          density := if truthyRat st.d then st.d else none
          height := if truthyNat st.h then st.h else none }

/-- The three states of the descriptor tokenizer. -/
inductive TState where
  | inDescriptor
  | inParens
  | afterDescriptor
deriving DecidableEq, Repr

/-- The character loop of `tokenize` (steps 8.3–8.4 of the source):
`cur` is `currentDescriptor`, `descriptors` the list collected so far.
Returns the final descriptor list and the position at which the loop
jumped to the descriptor parser.  The source's
"rewind one character, then advance" in the after-descriptor state is the
recursive call that keeps `pos` unchanged; every other step advances
`pos` by one.  `none` signals fuel exhaustion (shown impossible below for
fuel `> 2 * (input.length - pos) + 1`). -/
def tokenize (input : List Char) :
    Nat → Nat → List Char → List (List Char) → TState →
    Option (List (List Char) × Nat)
  | 0, _, _, _, _ => none
  | fuel + 1, pos, cur, descriptors, state =>
    if hpos : pos < input.length then
      let c := input.get ⟨pos, hpos⟩
      match state with
      | .inDescriptor =>
        if isASCIIWhitespace c then
          if cur.isEmpty then
            tokenize input fuel (pos + 1) cur descriptors .inDescriptor
          else
            tokenize input fuel (pos + 1) [] (descriptors ++ [cur]) .afterDescriptor
        else if c == ',' then
          some (descriptors ++ (if cur.isEmpty then [] else [cur]), pos + 1)
        else if c == '(' then
          tokenize input fuel (pos + 1) (cur ++ [c]) descriptors .inParens
        else
          tokenize input fuel (pos + 1) (cur ++ [c]) descriptors .inDescriptor
      | .inParens =>
        if c == ')' then
          tokenize input fuel (pos + 1) (cur ++ [c]) descriptors .inDescriptor
        else
          tokenize input fuel (pos + 1) (cur ++ [c]) descriptors .inParens
      | .afterDescriptor =>
        if isASCIIWhitespace c then
          tokenize input fuel (pos + 1) cur descriptors .afterDescriptor
        else
          tokenize input fuel pos cur descriptors .inDescriptor
    else
      match state with
      | .inDescriptor => some (descriptors ++ (if cur.isEmpty then [] else [cur]), pos)
      | .inParens => some (descriptors ++ [cur], pos)
      | .afterDescriptor => some (descriptors, pos)

/-- The outer splitting loop of `parseSrcset` (steps 4–16): skip commas
and spaces, detect end of input, collect the URL token, then either strip
trailing commas and parse an empty descriptor list, or skip whitespace and
run the tokenizer; on success append the candidate and loop.  `none`
signals fuel exhaustion (shown impossible below for fuel
`> input.length - pos`). -/
def splittingLoop (input : List Char) :
    Nat → Nat → List Candidate → Option (Except ParseError (List Candidate))
  | 0, _, _ => none
  | fuel + 1, pos, candidates =>
    let pos1 := pos + ((input.drop pos).takeWhile commaOrSpace).length
    if input.length ≤ pos1 then
      some (if candidates.isEmpty then .error .emptyCandidateSet else .ok candidates)
    else
      let startOffset := pos1
      let url := (input.drop pos1).takeWhile (fun c => !isASCIIWhitespace c)
      let pos2 := pos1 + url.length
      if url.getLast? == some ',' then
        match parseDescriptors (dropTrailingCommas url) startOffset [] with
        | .error e => some (.error e)
        | .ok cand => splittingLoop input fuel pos2 (candidates ++ [cand])
      else
        let pos3 := pos2 + ((input.drop pos2).takeWhile isASCIIWhitespace).length
        match tokenize input (2 * (input.length + 1)) pos3 [] [] .inDescriptor with
        | none => none
        | some (descriptors, pos4) =>
          match parseDescriptors url startOffset descriptors with
          | .error e => some (.error e)
          | .ok cand => splittingLoop input fuel pos4 (candidates ++ [cand])

/-- `parseSrcset`: run the splitting loop from position 0 with fuel
`input.length + 1` (proved sufficient below). -/
def parseSrcset (input : List Char) : Option (Except ParseError (List Candidate)) :=
  splittingLoop input (input.length + 1) 0 []

/-! ### Lemmas about the descriptor validator -/

/-- After examining a descriptor, the loop variable `desc` holds that
descriptor. -/
theorem descStep_desc (st : DescState) (d : List Char) :
    (descStep st d).desc = some d := by
  unfold descStep
  dsimp only
  split_ifs <;> rfl

/-- The error flag is never reset: one bad descriptor poisons the rest of
the loop. -/
theorem descStep_pError_mono (st : DescState) (d : List Char)
    (h : st.pError = true) : (descStep st d).pError = true := by
  unfold descStep
  dsimp only
  split_ifs <;> simp_all

/-- Monotonicity of the error flag over the whole descriptor loop. -/
theorem foldl_descStep_pError_mono (l : List (List Char)) (st : DescState)
    (h : st.pError = true) : (List.foldl descStep st l).pError = true := by
  induction l generalizing st with
  | nil => exact h
  | cons a l ih => exact ih _ (descStep_pError_mono _ _ h)

/-- After the descriptor loop, the loop variable `desc` holds the last
descriptor of the list. -/
theorem foldl_descStep_desc (l : List (List Char)) (st : DescState)
    (d : List Char) (h : l.getLast? = some d) :
    (List.foldl descStep st l).desc = some d := by
  induction l generalizing st with
  | nil => simp at h
  | cons a l ih =>
    cases l with
    | nil =>
      simp only [List.getLast?_singleton, Option.some.injEq] at h
      subst h
      exact descStep_desc st a
    | cons b l' =>
      rw [List.getLast?_cons_cons] at h
      exact ih _ h

/-- The mutual-exclusion invariant on the accumulators: a truthy density
excludes a truthy width and a truthy height. -/
def Excl (st : DescState) : Prop :=
  truthyRat st.d = true → truthyNat st.w = false ∧ truthyNat st.h = false

/-- Every step of the descriptor loop either flags an error or leaves the
accumulators mutually exclusive. -/
theorem descStep_excl (st : DescState) (d : List Char) :
    (descStep st d).pError = true ∨ Excl (descStep st d) := by
  unfold descStep Excl
  dsimp only
  split_ifs <;> simp_all [truthyNat, truthyRat]

/-- The whole descriptor loop either flags an error or leaves the
accumulators mutually exclusive. -/
theorem foldl_descStep_excl (l : List (List Char)) (st : DescState)
    (h : st.pError = true ∨ Excl st) :
    (List.foldl descStep st l).pError = true ∨ Excl (List.foldl descStep st l) := by
  induction l generalizing st with
  | nil => exact h
  | cons a l ih => exact ih _ (descStep_excl st a)

/-- A successful `parseDescriptors` returns the URL and offset it was
given, and never attaches a density together with a width or a height. -/
theorem parseDescriptors_ok (url : List Char) (off : Nat)
    (ds : List (List Char)) (c : Candidate)
    (h : parseDescriptors url off ds = .ok c) :
    c.source = ⟨url, off⟩ ∧
      (c.density.isSome = true → c.width = none ∧ c.height = none) := by
  unfold parseDescriptors at h
  set st := ds.foldl descStep initDescState with hst
  by_cases hp : st.pError = true
  · rw [if_pos hp] at h
    exact absurd h (by simp)
  · rw [if_neg hp] at h
    have hq : st.pError = true ∨ Excl st := by
      rw [hst]
      exact foldl_descStep_excl ds initDescState (Or.inr (by simp [Excl, initDescState, truthyRat]))
    have hex : Excl st := hq.resolve_left hp
    injection h with h'
    subst h'
    refine ⟨rfl, fun hd => ?_⟩
    by_cases htd : truthyRat st.d = true
    · obtain ⟨hw, hh⟩ := hex htd
      simp [hw, hh]
    · simp only [Bool.not_eq_true] at htd
      simp [htd] at hd

/-! ### Sign facts about the floating-point grammar -/

/-- The value of a decimal literal without sign is non-negative. -/
theorem decimalValue_nonneg (a b : List Char) (e : Int) :
    0 ≤ decimalValue a b e := by
  unfold decimalValue
  dsimp only
  split
  · exact Rat.mkRat_nonneg (by positivity) _
  · exact Rat.mkRat_nonneg (by positivity) _

/-- The unsigned magnitude of a floating-point literal is non-negative. -/
theorem floatMagnitude?_nonneg (body : List Char) (q : Rat)
    (h : floatMagnitude? body = some q) : 0 ≤ q := by
  unfold floatMagnitude? at h
  dsimp only at h
  split at h
  · split at h
    · exact absurd h (by simp)
    · rw [Option.map_eq_some'] at h
      obtain ⟨e, _, rfl⟩ := h
      exact decimalValue_nonneg _ _ _
  · split at h
    · exact absurd h (by simp)
    · rw [Option.map_eq_some'] at h
      obtain ⟨e, _, rfl⟩ := h
      exact decimalValue_nonneg _ _ _

/-- On a literal that does not start with a minus sign, the signed parse
agrees with the unsigned magnitude. -/
theorem parseValidFloat?_of_head_ne (v : List Char)
    (hhead : v.head? ≠ some '-') : parseValidFloat? v = floatMagnitude? v := by
  unfold parseValidFloat?
  split
  · simp at hhead
  · rfl

/-- A literal that does not start with a minus sign has a non-negative
value. -/
theorem parseValidFloat?_nonneg (v : List Char) (q : Rat)
    (hhead : v.head? ≠ some '-') (h : parseValidFloat? v = some q) : 0 ≤ q := by
  rw [parseValidFloat?_of_head_ne v hhead] at h
  exact floatMagnitude?_nonneg v q h

/-- A literal whose value is negative starts with a minus sign. -/
theorem parseValidFloat?_neg_head (v : List Char) (q : Rat)
    (h : parseValidFloat? v = some q) (hq : q < 0) : v.head? = some '-' := by
  by_contra hhead
  exact absurd hq (not_lt.mpr (parseValidFloat?_nonneg v q hhead h))

/-- A string starting with a minus sign is not a non-negative integer. -/
theorem parseNonNegInt?_head_neg (v : List Char) (hhead : v.head? = some '-') :
    parseNonNegInt? v = none := by
  match v with
  | [] => simp at hhead
  | c :: rest =>
    simp only [List.head?_cons, Option.some.injEq] at hhead
    subst hhead
    simp [parseNonNegInt?, Char.isDigit]

/-- A density descriptor with a strictly negative numeric value makes the
descriptor step raise the error flag, whatever the incoming state. -/
theorem descStep_neg_density (st : DescState) (desc : List Char) (q : Rat)
    (hx : desc.getLast? = some 'x')
    (hq : parseValidFloat? desc.dropLast = some q) (hneg : q < 0) :
    (descStep st desc).pError = true := by
  have hint : parseNonNegInt? desc.dropLast = none :=
    parseNonNegInt?_head_neg _ (parseValidFloat?_neg_head _ _ hq hneg)
  unfold descStep
  dsimp only
  rw [hint, hq, hx]
  simp [hneg]

/-- If any descriptor of the list is a density descriptor with a strictly
negative value, `parseDescriptors` fails with `invalidDescriptor`. -/
theorem parseDescriptors_neg_density (url : List Char) (off : Nat)
    (ds : List (List Char)) (desc : List Char) (q : Rat)
    (hmem : desc ∈ ds) (hx : desc.getLast? = some 'x')
    (hq : parseValidFloat? desc.dropLast = some q) (hneg : q < 0) :
    ∃ d, parseDescriptors url off ds = .error (.invalidDescriptor d) := by
  obtain ⟨s, t, rfl⟩ := List.append_of_mem hmem
  have herr : (List.foldl descStep initDescState (s ++ desc :: t)).pError = true := by
    rw [List.foldl_append, List.foldl_cons]
    exact foldl_descStep_pError_mono t _
      (descStep_neg_density _ _ q hx hq hneg)
  unfold parseDescriptors
  rw [if_pos herr]
  exact ⟨_, rfl⟩

/-! ### Termination of the tokenizer loop -/

/-- Termination weight of a tokenizer state: the after-descriptor state
may rewind once before consuming a character, so it counts one extra. -/
def stWeight : TState → Nat
  | .afterDescriptor => 1
  | _ => 0

/-- Fuel sufficiency and position monotonicity for the tokenizer: with
fuel exceeding twice the remaining input (plus the state weight) the loop
returns, and the returned position is not before the entry position.
This is the formal content of "the single-character rewind never loops":
each position is reprocessed at most once. -/
theorem tokenize_some (input : List Char) :
    ∀ fuel pos cur descs st,
      2 * (input.length - pos) + stWeight st < fuel →
      ∃ ds p, tokenize input fuel pos cur descs st = some (ds, p) ∧ pos ≤ p := by
  intro fuel
  induction fuel with
  | zero => intro pos cur descs st h; omega
  | succ n ih =>
    intro pos cur descs st h
    rw [tokenize.eq_def]
    dsimp only
    by_cases hpos : pos < input.length
    · rw [dif_pos hpos]
      cases st with
      | inDescriptor =>
        dsimp only
        by_cases hws : isASCIIWhitespace (input.get ⟨pos, hpos⟩) = true
        · rw [if_pos hws]
          by_cases hemp : cur.isEmpty = true
          · rw [if_pos hemp]
            obtain ⟨ds, p, heq, hle⟩ := ih (pos + 1) cur descs .inDescriptor
              (by simp only [stWeight] at h ⊢; omega)
            exact ⟨ds, p, heq, by omega⟩
          · rw [if_neg hemp]
            obtain ⟨ds, p, heq, hle⟩ := ih (pos + 1) [] (descs ++ [cur]) .afterDescriptor
              (by simp only [stWeight] at h ⊢; omega)
            exact ⟨ds, p, heq, by omega⟩
        · rw [if_neg hws]
          by_cases hcomma : (input.get ⟨pos, hpos⟩ == ',') = true
          · rw [if_pos hcomma]
            exact ⟨_, pos + 1, rfl, by omega⟩
          · rw [if_neg hcomma]
            by_cases hparen : (input.get ⟨pos, hpos⟩ == '(') = true
            · rw [if_pos hparen]
              obtain ⟨ds, p, heq, hle⟩ :=
                ih (pos + 1) (cur ++ [input.get ⟨pos, hpos⟩]) descs .inParens
                  (by simp only [stWeight] at h ⊢; omega)
              exact ⟨ds, p, heq, by omega⟩
            · rw [if_neg hparen]
              obtain ⟨ds, p, heq, hle⟩ :=
                ih (pos + 1) (cur ++ [input.get ⟨pos, hpos⟩]) descs .inDescriptor
                  (by simp only [stWeight] at h ⊢; omega)
              exact ⟨ds, p, heq, by omega⟩
      | inParens =>
        dsimp only
        by_cases hcl : (input.get ⟨pos, hpos⟩ == ')') = true
        · rw [if_pos hcl]
          obtain ⟨ds, p, heq, hle⟩ :=
            ih (pos + 1) (cur ++ [input.get ⟨pos, hpos⟩]) descs .inDescriptor
              (by simp only [stWeight] at h ⊢; omega)
          exact ⟨ds, p, heq, by omega⟩
        · rw [if_neg hcl]
          obtain ⟨ds, p, heq, hle⟩ :=
            ih (pos + 1) (cur ++ [input.get ⟨pos, hpos⟩]) descs .inParens
              (by simp only [stWeight] at h ⊢; omega)
          exact ⟨ds, p, heq, by omega⟩
      | afterDescriptor =>
        dsimp only
        by_cases hws : isASCIIWhitespace (input.get ⟨pos, hpos⟩) = true
        · rw [if_pos hws]
          obtain ⟨ds, p, heq, hle⟩ := ih (pos + 1) cur descs .afterDescriptor
            (by simp only [stWeight] at h ⊢; omega)
          exact ⟨ds, p, heq, by omega⟩
        · rw [if_neg hws]
          obtain ⟨ds, p, heq, hle⟩ := ih pos cur descs .inDescriptor
            (by simp only [stWeight] at h ⊢; omega)
          exact ⟨ds, p, heq, hle⟩
    · rw [dif_neg hpos]
      cases st with
      | inDescriptor => exact ⟨_, pos, rfl, le_refl _⟩
      | inParens => exact ⟨_, pos, rfl, le_refl _⟩
      | afterDescriptor => exact ⟨_, pos, rfl, le_refl _⟩

/-! ### The splitting loop -/

/-- Dropping as many characters as the matched run leaves exactly the
unmatched remainder. -/
theorem drop_length_takeWhile (p : Char → Bool) :
    ∀ l : List Char, l.drop (l.takeWhile p).length = l.dropWhile p := by
  intro l
  induction l with
  | nil => rfl
  | cons a l ih =>
    by_cases hp : p a = true
    · rw [List.takeWhile_cons, if_pos hp, List.dropWhile_cons_of_pos hp,
        List.length_cons, List.drop_succ_cons]
      exact ih
    · rw [List.takeWhile_cons, if_neg hp,
        List.dropWhile_cons_of_neg (by simpa using hp)]
      rfl

/-- Advancing the scan position over a `collectCharacters` run lands on
the unmatched remainder of the input. -/
theorem drop_pos_takeWhile (p : Char → Bool) (input : List Char) (pos : Nat) :
    input.drop (pos + ((input.drop pos).takeWhile p).length) =
      (input.drop pos).dropWhile p := by
  rw [← List.drop_drop]
  exact drop_length_takeWhile p (input.drop pos)

/-- The first character after a `collectCharacters` run does not match
the collected class. -/
theorem dropWhile_head_false (p : Char → Bool) (l : List Char) (c : Char)
    (t : List Char) (h : l.dropWhile p = c :: t) : p c = false := by
  have h2 := List.head?_dropWhile_not p l
  rw [h] at h2
  simpa using h2

/-- Fuel sufficiency for the splitting loop: with fuel exceeding the
remaining input length the loop returns a result.  Together with
`tokenize_some` this is the termination argument for the whole parser. -/
theorem splittingLoop_some (input : List Char) :
    ∀ fuel pos candidates, input.length - pos < fuel →
      ∃ r, splittingLoop input fuel pos candidates = some r := by
  intro fuel
  induction fuel with
  | zero => intro pos cands h; omega
  | succ n ih =>
    intro pos cands h
    rw [splittingLoop.eq_def]
    dsimp only
    set pos1 := pos + ((input.drop pos).takeWhile commaOrSpace).length with hpos1
    by_cases hend : input.length ≤ pos1
    · rw [if_pos hend]
      exact ⟨_, rfl⟩
    · rw [if_neg hend]
      have hlt : pos1 < input.length := by omega
      have hdrop : input.drop pos1 = (input.drop pos).dropWhile commaOrSpace :=
        drop_pos_takeWhile commaOrSpace input pos
      have hne : input.drop pos1 ≠ [] := by
        rw [ne_eq, List.drop_eq_nil_iff]
        omega
      obtain ⟨c, t, hct⟩ := List.exists_cons_of_ne_nil hne
      have hcs : commaOrSpace c = false :=
        dropWhile_head_false commaOrSpace (input.drop pos) c t (by rw [← hdrop]; exact hct)
      have hws : isASCIIWhitespace c = false := by
        unfold commaOrSpace at hcs
        exact (Bool.or_eq_false_iff.mp hcs).2
      set url := (input.drop pos1).takeWhile (fun c => !isASCIIWhitespace c) with hurl
      have hu : 0 < url.length := by
        rw [hurl, hct, List.takeWhile_cons]
        simp [hws]
      by_cases hcomma : (url.getLast? == some ',') = true
      · rw [if_pos hcomma]
        cases hpd : parseDescriptors (dropTrailingCommas url) pos1 [] with
        | error e => exact ⟨_, rfl⟩
        | ok cand => exact ih (pos1 + url.length) (cands ++ [cand]) (by omega)
      · rw [if_neg hcomma]
        set pos3 := pos1 + url.length +
          ((input.drop (pos1 + url.length)).takeWhile isASCIIWhitespace).length with hpos3
        obtain ⟨ds, p4, htok, hle⟩ :=
          tokenize_some input (2 * (input.length + 1)) pos3 [] [] .inDescriptor
            (by simp only [stWeight]; omega)
        rw [htok]
        dsimp only
        cases hpd : parseDescriptors url pos1 ds with
        | error e => exact ⟨_, rfl⟩
        | ok cand => exact ih p4 (cands ++ [cand]) (by omega)

/-- The invariant carried by every candidate the parser emits: density is
never attached together with width or height, and the source value is the
substring of the input at its recorded start offset. -/
def GoodCand (input : List Char) (c : Candidate) : Prop :=
  (c.density.isSome = true → c.width = none ∧ c.height = none) ∧
  c.source.value = (input.drop c.source.startOffset).take c.source.value.length

/-- Every candidate list returned by the splitting loop consists of
`GoodCand` candidates, provided the accumulator already does. -/
theorem splittingLoop_good (input : List Char) :
    ∀ fuel pos candidates cs,
      (∀ c ∈ candidates, GoodCand input c) →
      splittingLoop input fuel pos candidates = some (.ok cs) →
      ∀ c ∈ cs, GoodCand input c := by
  intro fuel
  induction fuel with
  | zero =>
    intro pos cands cs hacc heq
    simp [splittingLoop] at heq
  | succ n ih =>
    intro pos cands cs hacc heq
    rw [splittingLoop.eq_def] at heq
    dsimp only at heq
    set pos1 := pos + ((input.drop pos).takeWhile commaOrSpace).length with hpos1
    by_cases hend : input.length ≤ pos1
    · rw [if_pos hend] at heq
      by_cases hemp : cands.isEmpty = true
      · rw [if_pos hemp] at heq
        simp at heq
      · rw [if_neg hemp] at heq
        obtain rfl : cands = cs := by
          injection heq with h1
          injection h1
        exact hacc
    · rw [if_neg hend] at heq
      set url := (input.drop pos1).takeWhile (fun c => !isASCIIWhitespace c) with hurl
      have hpre1 : url <+: input.drop pos1 := by
        rw [hurl]
        exact List.takeWhile_prefix _
      by_cases hcomma : (url.getLast? == some ',') = true
      · rw [if_pos hcomma] at heq
        cases hpd : parseDescriptors (dropTrailingCommas url) pos1 [] with
        | error e =>
          rw [hpd] at heq
          simp at heq
        | ok cand =>
          rw [hpd] at heq
          dsimp only at heq
          obtain ⟨hsrc, hexcl⟩ := parseDescriptors_ok _ _ _ _ hpd
          have hpre2 : dropTrailingCommas url <+: url := by
            unfold dropTrailingCommas
            have hsuf : url.reverse.dropWhile (· == ',') <:+ url.reverse :=
              List.dropWhile_suffix _
            have h2 := List.reverse_prefix.mpr hsuf
            rw [List.reverse_reverse] at h2
            exact h2
          have hgood : GoodCand input cand := by
            refine ⟨hexcl, ?_⟩
            rw [hsrc]
            exact List.prefix_iff_eq_take.mp (hpre2.trans hpre1)
          refine ih _ _ _ ?_ heq
          intro c hc
          rcases List.mem_append.mp hc with hc1 | hc2
          · exact hacc c hc1
          · rw [List.mem_singleton] at hc2
            subst hc2
            exact hgood
      · rw [if_neg hcomma] at heq
        cases htok : tokenize input (2 * (input.length + 1))
            (pos1 + url.length +
              ((input.drop (pos1 + url.length)).takeWhile isASCIIWhitespace).length)
            [] [] .inDescriptor with
        | none =>
          rw [htok] at heq
          simp at heq
        | some r =>
          rw [htok] at heq
          obtain ⟨ds, p4⟩ := r
          dsimp only at heq
          cases hpd : parseDescriptors url pos1 ds with
          | error e =>
            rw [hpd] at heq
            simp at heq
          | ok cand =>
            rw [hpd] at heq
            dsimp only at heq
            obtain ⟨hsrc, hexcl⟩ := parseDescriptors_ok _ _ _ _ hpd
            have hgood : GoodCand input cand := by
              refine ⟨hexcl, ?_⟩
              rw [hsrc]
              exact List.prefix_iff_eq_take.mp hpre1
            refine ih _ _ _ ?_ heq
            intro c hc
            rcases List.mem_append.mp hc with hc1 | hc2
            · exact hacc c hc1
            · rw [List.mem_singleton] at hc2
              subst hc2
              exact hgood

/-! ### The claims -/

/-- C1.  The claim states that a density descriptor flags an error
whenever width, density or height has already been set, so that a second
density descriptor always fails — also after an earlier `0x`.  The code
tests JavaScript truthiness (`if (w || d || h)`), under which a stored
density of `0` counts as absent: on `"data:,a 0x 1x"` the parse succeeds
and returns one candidate with density `1`, contradicting the claim and
the algorithm transcribed in the code's own comments. -/
theorem claim_C1_code_eval :
    parseSrcset "data:,a 0x 1x".toList =
      some (.ok [{ source := ⟨"data:,a".toList, 0⟩, width := none,
                   density := some 1, height := none }]) := by
  rfl

/-- C2.  The claim states that a candidate carries a density field iff a
density descriptor was set, including density value `0`.  The code emits
the field only under truthiness (`if (d)`), so on `"data:,a 0x"` the
validated density `0` is dropped and the returned candidate has no
density field, contradicting the claim and the code's own comment
("a pixel density density if not absent"). -/
theorem claim_C2_code_eval :
    parseSrcset "data:,a 0x".toList =
      some (.ok [{ source := ⟨"data:,a".toList, 0⟩, width := none,
                   density := none, height := none }]) := by
  rfl

/-- C3.  Every input consisting only of spaces, tabs, line feeds, form
feeds, carriage returns and commas (including the empty input) makes the
parse fail with the no-candidates error rather than return an empty
candidate list. -/
theorem claim_C3_only_separators (input : List Char)
    (h : ∀ c ∈ input,
      c = ' ' ∨ c = '\t' ∨ c = '\n' ∨ c = '\x0C' ∨ c = '\r' ∨ c = ',') :
    parseSrcset input = some (.error .emptyCandidateSet) := by
  have hall : ∀ c ∈ input, commaOrSpace c = true := by
    intro c hc
    rcases h c hc with rfl | rfl | rfl | rfl | rfl | rfl <;> rfl
  unfold parseSrcset
  rw [splittingLoop.eq_def]
  dsimp only
  rw [List.drop_zero, List.takeWhile_eq_self_iff.mpr hall, if_pos (by omega)]
  rfl

/-- Witness for C3 at the concrete input `" ,,\t\n"`. -/
theorem claim_C3_witness :
    parseSrcset " ,,\t\n".toList = some (.error .emptyCandidateSet) :=
  claim_C3_only_separators _ (by decide)

/-- C4.  Width `0` fails; density `0` and `-0` succeed, with `-0` parsed
as zero (not negative); any density descriptor whose parsed value is
strictly negative (such as `-1x`) makes `parseDescriptors` fail. -/
theorem claim_C4_zero_and_negative :
    parseSrcset "data:,a 0w".toList =
        some (.error (.invalidDescriptor (some "0w".toList))) ∧
    parseSrcset "data:,a 0x".toList =
        some (.ok [{ source := ⟨"data:,a".toList, 0⟩, width := none,
                     density := none, height := none }]) ∧
    parseSrcset "data:,a -0x".toList =
        some (.ok [{ source := ⟨"data:,a".toList, 0⟩, width := none,
                     density := none, height := none }]) ∧
    parseValidFloat? "-0".toList = some 0 ∧
    parseSrcset "data:,a -1x".toList =
        some (.error (.invalidDescriptor (some "-1x".toList))) ∧
    ∀ (url : List Char) (off : Nat) (ds : List (List Char))
      (desc : List Char) (q : Rat),
      desc ∈ ds → desc.getLast? = some 'x' →
      parseValidFloat? desc.dropLast = some q → q < 0 →
      ∃ d, parseDescriptors url off ds = .error (.invalidDescriptor d) :=
  ⟨by rfl, by rfl, by rfl, by rfl, by rfl, parseDescriptors_neg_density⟩

/-- Witness for C4 at the concrete descriptor list `["-1x"]`. -/
theorem claim_C4_witness :
    ∃ d, parseDescriptors "data:,a".toList 0 ["-1x".toList] =
      .error (.invalidDescriptor d) :=
  claim_C4_zero_and_negative.2.2.2.2.2 "data:,a".toList 0 ["-1x".toList]
    "-1x".toList (-1) (by decide) (by rfl) (by rfl) (by norm_num)

/-- C5.  In every successful parse no candidate carries both width and
density, nor both height and density; width and height may co-occur, as
on `"data:,a 1h 1w"`. -/
theorem claim_C5_mutual_exclusion :
    (∀ (input : List Char) (cs : List Candidate),
        parseSrcset input = some (.ok cs) →
        ∀ c ∈ cs,
          ¬(c.width.isSome = true ∧ c.density.isSome = true) ∧
          ¬(c.height.isSome = true ∧ c.density.isSome = true)) ∧
    parseSrcset "data:,a 1h 1w".toList =
      some (.ok [{ source := ⟨"data:,a".toList, 0⟩, width := some 1,
                   density := none, height := some 1 }]) := by
  constructor
  · intro input cs hps c hc
    obtain ⟨hex, _⟩ :=
      splittingLoop_good input (input.length + 1) 0 [] cs (by simp) hps c hc
    constructor
    · rintro ⟨hw, hd⟩
      obtain ⟨hwn, _⟩ := hex hd
      rw [hwn] at hw
      simp at hw
    · rintro ⟨hh, hd⟩
      obtain ⟨_, hhn⟩ := hex hd
      rw [hhn] at hh
      simp at hh
  · rfl

/-- Witness for C5 at the concrete input `"data:,a 1h 1w"`. -/
theorem claim_C5_witness :
    ¬(({ source := ⟨"data:,a".toList, 0⟩, width := some 1, density := none,
         height := some 1 } : Candidate).width.isSome = true ∧
      ({ source := ⟨"data:,a".toList, 0⟩, width := some 1, density := none,
         height := some 1 } : Candidate).density.isSome = true) ∧
    ¬(({ source := ⟨"data:,a".toList, 0⟩, width := some 1, density := none,
         height := some 1 } : Candidate).height.isSome = true ∧
      ({ source := ⟨"data:,a".toList, 0⟩, width := some 1, density := none,
         height := some 1 } : Candidate).density.isSome = true) :=
  claim_C5_mutual_exclusion.1 "data:,a 1h 1w".toList
    [{ source := ⟨"data:,a".toList, 0⟩, width := some 1, density := none,
       height := some 1 }] (by rfl) _ (by simp)

/-- C6.  In the in-parens state, commas and whitespace lose their
separator meaning and are appended to the current descriptor buffer; on
`"data:,a ( , data:,b 1x, ), data:,c"` the whole parenthesized group is
collected as one descriptor token (and the parse then fails on it, as in
the reference test corpus). -/
theorem claim_C6_parens :
    (∀ (input : List Char) (fuel pos : Nat) (cur : List Char)
        (descs : List (List Char)) (c : Char),
        input[pos]? = some c → (c = ',' ∨ isASCIIWhitespace c = true) →
        tokenize input (fuel + 1) pos cur descs .inParens =
          tokenize input fuel (pos + 1) (cur ++ [c]) descs .inParens) ∧
    tokenize "data:,a ( , data:,b 1x, ), data:,c".toList 70 8 [] []
        .inDescriptor =
      some (["( , data:,b 1x, )".toList], 26) ∧
    parseSrcset "data:,a ( , data:,b 1x, ), data:,c".toList =
      some (.error (.invalidDescriptor (some "( , data:,b 1x, )".toList))) := by
  refine ⟨?_, by rfl, by rfl⟩
  intro input fuel pos cur descs c hget hc
  obtain ⟨hpos, hceq⟩ := List.getElem?_eq_some.mp hget
  have hg : input.get ⟨pos, hpos⟩ = c := hceq
  have hne : (c == ')') = false := by
    rcases hc with rfl | hws
    · decide
    · rw [Bool.eq_false_iff]
      intro hcc
      rw [beq_iff_eq] at hcc
      subst hcc
      exact absurd hws (by decide)
  simp only [tokenize]
  rw [dif_pos hpos]
  rw [hg, if_neg (by rw [hne]; exact Bool.false_ne_true)]

/-- Witness for C6 at the concrete input `[',']` in the in-parens
state. -/
theorem claim_C6_witness :
    tokenize [','] 1 0 [] [] .inParens = tokenize [','] 0 1 [','] [] .inParens :=
  claim_C6_parens.1 [','] 0 0 [] [] ',' (by rfl) (Or.inl rfl)

/-- C7.  Every candidate of a successful parse satisfies the round-trip
property: its source value is the contiguous substring of the input that
starts at its recorded start offset. -/
theorem claim_C7_source_substring :
    ∀ (input : List Char) (cs : List Candidate),
      parseSrcset input = some (.ok cs) →
      ∀ c ∈ cs,
        c.source.value =
          (input.drop c.source.startOffset).take c.source.value.length := by
  intro input cs hps c hc
  exact (splittingLoop_good input (input.length + 1) 0 [] cs (by simp) hps c hc).2

/-- Witness for C7 at the concrete input `"ab"`. -/
theorem claim_C7_witness :
    ({ source := ⟨"ab".toList, 0⟩, width := none, density := none,
       height := none } : Candidate).source.value =
      ("ab".toList.drop
          ({ source := ⟨"ab".toList, 0⟩, width := none, density := none,
             height := none } : Candidate).source.startOffset).take
        ({ source := ⟨"ab".toList, 0⟩, width := none, density := none,
           height := none } : Candidate).source.value.length :=
  claim_C7_source_substring "ab".toList
    [{ source := ⟨"ab".toList, 0⟩, width := none, density := none,
       height := none }] (by rfl) _ (by simp)

/-- C8, counterexample.  The claim states that the invalid-descriptor
error names the descriptor that triggered the error flag (`"foo"` on
input `"data:,a foo 1x"`).  The code interpolates the loop variable
`desc`, which after the loop holds the last descriptor examined: on this
input the reported descriptor is `"1x"`, not `"foo"`. -/
theorem claim_C8_counterexample :
    parseSrcset "data:,a foo 1x".toList =
        some (.error (.invalidDescriptor (some "1x".toList))) ∧
    some "1x".toList ≠ some "foo".toList :=
  ⟨by rfl, by decide⟩

/-- C8, amended.  Whenever `parseDescriptors` fails, the reported
descriptor is the last descriptor of the candidate's descriptor list —
the final one examined by the loop — which need not be the descriptor
that triggered the error flag. -/
theorem claim_C8_amended :
    ∀ (url : List Char) (off : Nat) (ds : List (List Char)) (e : ParseError),
      parseDescriptors url off ds = .error e →
      e = .invalidDescriptor ds.getLast? := by
  intro url off ds e h
  unfold parseDescriptors at h
  set st := ds.foldl descStep initDescState with hst
  by_cases hp : st.pError = true
  · rw [if_pos hp] at h
    cases hds : ds.getLast? with
    | none =>
      rw [List.getLast?_eq_none_iff] at hds
      subst hds
      exact absurd hp (by simp [hst, initDescState])
    | some d =>
      have hdesc : st.desc = some d := foldl_descStep_desc ds initDescState d hds
      injection h with h1
      rw [← h1, hdesc]
  · rw [if_neg hp] at h
    simp at h

/-- Witness for C8 at the concrete descriptor list `["foo"]`. -/
theorem claim_C8_witness :
    ParseError.invalidDescriptor (some "foo".toList) =
      .invalidDescriptor (["foo".toList] : List (List Char)).getLast? :=
  claim_C8_amended "a".toList 0 ["foo".toList]
    (.invalidDescriptor (some "foo".toList)) (by rfl)

/-- C9, counterexample.  The claim states that
`parse " , ,data:,a 1x, "` and `parse "data:,a 1x"` yield the same
single candidate.  The candidates differ: the leading separator run
shifts `source.startOffset` from `0` to `4`. -/
theorem claim_C9_counterexample :
    parseSrcset " , ,data:,a 1x, ".toList =
        some (.ok [{ source := ⟨"data:,a".toList, 4⟩, width := none,
                     density := some 1, height := none }]) ∧
    parseSrcset "data:,a 1x".toList =
        some (.ok [{ source := ⟨"data:,a".toList, 0⟩, width := none,
                     density := some 1, height := none }]) ∧
    ({ source := ⟨"data:,a".toList, 4⟩, width := none, density := some 1,
       height := none } : Candidate) ≠
      { source := ⟨"data:,a".toList, 0⟩, width := none, density := some 1,
        height := none } :=
  ⟨by rfl, by rfl, by decide⟩

/-- C9, amended.  The two parses yield single candidates agreeing on
`source.value`, width, density and height; only `source.startOffset`
differs, equalling the index of the URL token in each input (4 vs 0). -/
theorem claim_C9_amended :
    parseSrcset " , ,data:,a 1x, ".toList =
        some (.ok [{ source := ⟨"data:,a".toList, 4⟩, width := none,
                     density := some 1, height := none }]) ∧
    parseSrcset "data:,a 1x".toList =
        some (.ok [{ source := ⟨"data:,a".toList, 0⟩, width := none,
                     density := some 1, height := none }]) ∧
    ({ source := ⟨"data:,a".toList, 4⟩, width := none, density := some 1,
       height := none } : Candidate).source.value =
      ({ source := ⟨"data:,a".toList, 0⟩, width := none, density := some 1,
         height := none } : Candidate).source.value ∧
    ({ source := ⟨"data:,a".toList, 4⟩, width := none, density := some 1,
       height := none } : Candidate).width =
      ({ source := ⟨"data:,a".toList, 0⟩, width := none, density := some 1,
         height := none } : Candidate).width ∧
    ({ source := ⟨"data:,a".toList, 4⟩, width := none, density := some 1,
       height := none } : Candidate).density =
      ({ source := ⟨"data:,a".toList, 0⟩, width := none, density := some 1,
         height := none } : Candidate).density ∧
    ({ source := ⟨"data:,a".toList, 4⟩, width := none, density := some 1,
       height := none } : Candidate).height =
      ({ source := ⟨"data:,a".toList, 0⟩, width := none, density := some 1,
         height := none } : Candidate).height ∧
    ({ source := ⟨"data:,a".toList, 4⟩, width := none, density := some 1,
       height := none } : Candidate).source.startOffset = 4 ∧
    ({ source := ⟨"data:,a".toList, 0⟩, width := none, density := some 1,
       height := none } : Candidate).source.startOffset = 0 :=
  ⟨by rfl, by rfl, rfl, rfl, rfl, rfl, rfl, rfl⟩

/-- C10.  For every finite input the parser terminates with a result:
either a candidate list or one of the two errors.  (The fuel
`input.length + 1` supplied by `parseSrcset` is proved sufficient by
`splittingLoop_some` and `tokenize_some`, which bound how often the
after-descriptor rewind can reprocess a position.) -/
theorem claim_C10_termination :
    ∀ input : List Char,
      (∃ cs, parseSrcset input = some (.ok cs)) ∨
      parseSrcset input = some (.error .emptyCandidateSet) ∨
      (∃ d, parseSrcset input = some (.error (.invalidDescriptor d))) := by
  intro input
  obtain ⟨r, hr⟩ := splittingLoop_some input (input.length + 1) 0 [] (by omega)
  have hr2 : parseSrcset input = some r := hr
  cases r with
  | ok cs => exact Or.inl ⟨cs, hr2⟩
  | error e =>
    cases e with
    | emptyCandidateSet => exact Or.inr (Or.inl hr2)
    | invalidDescriptor d => exact Or.inr (Or.inr ⟨d, hr2⟩)

end ParseSrcset
